import Mathlib

/-
Verification of the ATPCaseMovement movement-detection core
(src/movement_detector.py) against its natural-language specification.

The vision primitives supplied by OpenCV (grayscale conversion, ORB
feature extraction, brute-force Hamming matching with cross-check, and
RANSAC homography estimation) are modelled as an abstract, deterministic
`Vision` structure of functions; the orchestrator and the transform
analyzer are translated from the Python source.  Floating-point
arithmetic is modelled by exact real arithmetic.
-/

/-- A 3x3 real matrix, the type of an estimated homography. -/
abbrev Mat3 := Matrix (Fin 3) (Fin 3) ℝ

/-- Two-argument arctangent with `np.arctan2` conventions:
`atan2 y x` is the angle of the point `(x, y)`. -/
noncomputable def atan2 (y x : ℝ) : ℝ :=
  if 0 < x then Real.arctan (y / x)
  else if x < 0 then
    (if 0 ≤ y then Real.arctan (y / x) + Real.pi else Real.arctan (y / x) - Real.pi)
  else
    (if 0 < y then Real.pi / 2 else if y < 0 then -(Real.pi / 2) else 0)

/-- Translation of `analyze_transformation` (src/movement_detector.py,
lines 92-116).  `H` is the optional homography; `num_matches` is the
match count (a Python int); `num_inliers` is passed by the orchestrator
as a Python float, hence modelled as a real.  The Python source also
reads `d = H[1, 1]`, which is never used and is omitted here. -/
noncomputable def analyze_transformation (H : Option Mat3) (num_matches : ℕ)
    (num_inliers : ℝ) : ℝ :=
  match H with
  | none => 100
  | some H =>
    let tx := H 0 2
    let ty := H 1 2
    let a := H 0 0
    let b := H 0 1
    let c := H 1 0
    let translation_magnitude := Real.sqrt (tx ^ 2 + ty ^ 2)
    let rotation_angle := atan2 b a
    let scale_factor := Real.sqrt (a ^ 2 + c ^ 2)
    let normalized_translation := min (translation_magnitude / 8.0) 1.0
    let normalized_rotation := min (|rotation_angle| / (Real.pi / 18)) 1.0
    let normalized_scale := min (|scale_factor - 1.0| / 0.08) 1.0
    let movement_score :=
      0.6 * normalized_translation * 100 +
      0.25 * normalized_rotation * 100 +
      0.15 * normalized_scale * 100
    let movement_score :=
      if num_matches < 15 then movement_score * 1.1 else movement_score
    let movement_score :=
      if num_inliers / (num_matches : ℝ) < 0.4 then movement_score * 1.05
      else movement_score
    movement_score

/-- The reference scoring formula exactly as the specification words it
(claim C3): a 60/25/15-weighted sum of clamped translation, rotation and
scale components, then multiplied by 1.10 when the match count is below
15, then multiplied by 1.05 when the inlier ratio is below 0.4. -/
noncomputable def analyzeSpecFormula (H : Mat3) (m : ℕ) (i : ℝ) : ℝ :=
  let base :=
    60 * min (Real.sqrt ((H 0 2) ^ 2 + (H 1 2) ^ 2) / 8) 1 +
    25 * min (|atan2 (H 0 1) (H 0 0)| / (Real.pi / 18)) 1 +
    15 * min (|Real.sqrt ((H 0 0) ^ 2 + (H 1 0) ^ 2) - 1| / 0.08) 1
  let afterMatches := if m < 15 then base * 1.10 else base
  if i / (m : ℝ) < 0.4 then afterMatches * 1.05 else afterMatches

/-- A keypoint: a 2-D location in image coordinates.  The
detector-specific orientation/scale metadata plays no role in the
pipeline and is not modelled. -/
structure Keypoint where
  pt : ℝ × ℝ
deriving Inhabited

/-- A descriptor match as produced by `cv2.BFMatcher.match`: indices
into the previous (query) and current (train) keypoint lists, plus a
Hamming distance. -/
structure DMatch where
  queryIdx : ℕ
  trainIdx : ℕ
  distance : ℕ
deriving Inhabited, DecidableEq

/-- Insert a match into a distance-sorted list: the new element never
moves past an element of equal distance, so earlier list elements stay
in front of later equal-distance ones (stability). -/
def insertByDistance (m : DMatch) : List DMatch → List DMatch
  | [] => [m]
  | x :: xs =>
    if m.distance ≤ x.distance then m :: x :: xs else x :: insertByDistance m xs

/-- Stable sort by ascending distance, modelling
`sorted(matches, key=lambda x: x.distance)` (a stable sort by a key is
unique as a function, so any stable algorithm models Python here). -/
def sortByDistance (ms : List DMatch) : List DMatch := ms.foldr insertByDistance []

/-- The OpenCV primitives the orchestrator invokes, as abstract
deterministic functions (the specification requires determinism of each
of them for a fixed configuration):
* `cvtColor` — `cv2.cvtColor(·, cv2.COLOR_RGB2GRAY)`;
* `detectAndCompute` — `orb.detectAndCompute` for the fixed
  `cv2.ORB_create(nfeatures=1000)` detector: keypoints plus an optional
  descriptor matrix (OpenCV yields `None` when nothing is detected);
* `bfMatch` — `cv2.BFMatcher(cv2.NORM_HAMMING, crossCheck=True).match`;
* `findHomography` — `cv2.findHomography(src, dst, cv2.RANSAC, t)`,
  returning `none` on estimation failure, otherwise a matrix and a 0/1
  inlier mask. -/
structure Vision (Frame Gray D : Type) where
  cvtColor : Frame → Gray
  detectAndCompute : Gray → List Keypoint × Option D
  bfMatch : D → D → List DMatch
  findHomography : List (ℝ × ℝ) → List (ℝ × ℝ) → ℝ → Option (Mat3 × List Bool)

/-- One entry of `transformation_data`: the per-transition record
appended by `detect_significant_movement` (the Python dict with keys
`frame_idx`, `homography`, `matches`, `inliers`, `score`). -/
structure FrameRec where
  frame_idx : ℕ
  homography : Option Mat3
  «matches» : ℕ
  inliers : ℕ
  score : ℝ
deriving Inhabited

/-- The aggregate returned by `detect_significant_movement` (the Python
dict with keys `movement_frames`, `movement_scores`,
`transformation_data`). -/
structure DetectionResult where
  movement_frames : List ℕ
  movement_scores : List ℝ
  transformation_data : List FrameRec

/-- `np.float32([prev_keypoints[m.queryIdx].pt for m in matches])`
(line 33).  Out-of-range indices are modelled by a default point; the
matcher contract keeps indices in range. -/
def srcPoints (pkps : List Keypoint) (ms : List DMatch) : List (ℝ × ℝ) :=
  ms.map fun m => (pkps.getD m.queryIdx default).pt

/-- `np.float32([keypoints[m.trainIdx].pt for m in matches])` (line 34). -/
def dstPoints (kps : List Keypoint) (ms : List DMatch) : List (ℝ × ℝ) :=
  ms.map fun m => (kps.getD m.trainIdx default).pt

variable {Frame Gray D : Type}

/-- The three appends shared verbatim by every insufficient-evidence
branch of the Python loop (lines 51-60, 62-71, 73-82): score 100.0,
frame flagged, record with a null homography and zero inliers. -/
def failureResult (acc : DetectionResult) (idx numMatches : ℕ) : DetectionResult :=
  { movement_frames := acc.movement_frames ++ [idx]
    movement_scores := acc.movement_scores ++ [(100 : ℝ)]
    transformation_data :=
      acc.transformation_data ++ [⟨idx, none, numMatches, 0, 100⟩] }

/-- The `for idx, frame in enumerate(frames)` loop of
`detect_significant_movement` (lines 21-84), with the loop-local
accumulators and the rolling state (`prev_gray`, `prev_keypoints`,
`prev_descriptors`) threaded explicitly.  The current frame's
descriptors can only be `none` when its keypoint list is empty, in
which case the `len(keypoints) > min_features` conjunct already fails;
the catch-all arm therefore coincides with the Python `else` branch. -/
noncomputable def detectLoop (V : Vision Frame Gray D) (threshold : ℝ)
    (min_features : ℕ) (ransac_threshold : ℝ) (acc : DetectionResult)
    (prevGray : Option Gray) (prevKeypoints : Option (List Keypoint))
    (prevDescriptors : Option D) (idx : ℕ) : List Frame → DetectionResult
  | [] => acc
  | frame :: rest =>
    let gray := V.cvtColor frame
    let acc' :=
      match prevGray with
      | none => acc
      | some _ =>
        let kd := V.detectAndCompute gray
        match prevKeypoints, prevDescriptors, kd.2 with
        | some pkps, some pdesc, some descs =>
          if kd.1.length > min_features ∧ pkps.length > min_features then
            let ms := sortByDistance (V.bfMatch pdesc descs)
            if ms.length ≥ min_features then
              match V.findHomography (srcPoints pkps ms) (dstPoints kd.1 ms)
                  ransac_threshold with
              | some (H, mask) =>
                let movement_score := analyze_transformation (some H) ms.length
                  (((ms.length * mask.count true : ℕ) : ℝ) / ((mask.length : ℕ) : ℝ))
                { movement_frames :=
                    if movement_score > threshold then acc.movement_frames ++ [idx]
                    else acc.movement_frames
                  movement_scores := acc.movement_scores ++ [movement_score]
                  transformation_data := acc.transformation_data ++
                    [⟨idx, some H, ms.length, mask.count true, movement_score⟩] }
              | none => failureResult acc idx ms.length
            else failureResult acc idx ms.length
          else failureResult acc idx 0
        | _, _, _ => failureResult acc idx 0
    detectLoop V threshold min_features ransac_threshold acc' (some gray)
      (some (V.detectAndCompute gray).1) (V.detectAndCompute gray).2 (idx + 1) rest

/-- Translation of `detect_significant_movement`
(src/movement_detector.py, lines 5-90). -/
noncomputable def detect_significant_movement (V : Vision Frame Gray D)
    (threshold : ℝ) (min_features : ℕ) (ransac_threshold : ℝ)
    (frames : List Frame) : DetectionResult :=
  detectLoop V threshold min_features ransac_threshold ⟨[], [], []⟩
    none none none 0 frames

/-- The contribution of one processed transition, extracted from the
loop body: the appended movement score, the appended record, and
whether the frame index is appended to `movement_frames`. -/
noncomputable def transOut (V : Vision Frame Gray D) (threshold : ℝ)
    (min_features : ℕ) (ransac_threshold : ℝ)
    (prevKeypoints : Option (List Keypoint)) (prevDescriptors : Option D)
    (gray : Gray) (idx : ℕ) : ℝ × FrameRec × Bool :=
  let kd := V.detectAndCompute gray
  match prevKeypoints, prevDescriptors, kd.2 with
  | some pkps, some pdesc, some descs =>
    if kd.1.length > min_features ∧ pkps.length > min_features then
      let ms := sortByDistance (V.bfMatch pdesc descs)
      if ms.length ≥ min_features then
        match V.findHomography (srcPoints pkps ms) (dstPoints kd.1 ms)
            ransac_threshold with
        | some (H, mask) =>
          let movement_score := analyze_transformation (some H) ms.length
            (((ms.length * mask.count true : ℕ) : ℝ) / ((mask.length : ℕ) : ℝ))
          (movement_score,
           ⟨idx, some H, ms.length, mask.count true, movement_score⟩,
           decide (movement_score > threshold))
        | none => (100, ⟨idx, none, ms.length, 0, 100⟩, true)
      else (100, ⟨idx, none, ms.length, 0, 100⟩, true)
    else (100, ⟨idx, none, 0, 0, 100⟩, true)
  | _, _, _ => (100, ⟨idx, none, 0, 0, 100⟩, true)

/-- The stream of per-transition contributions, starting from a given
retained feature state and frame index. -/
noncomputable def transOutsAux (V : Vision Frame Gray D) (threshold : ℝ)
    (min_features : ℕ) (ransac_threshold : ℝ) :
    Option (List Keypoint) → Option D → ℕ → List Frame →
    List (ℝ × FrameRec × Bool)
  | _, _, _, [] => []
  | pk, pd, idx, f :: rest =>
    let gray := V.cvtColor f
    transOut V threshold min_features ransac_threshold pk pd gray idx ::
      transOutsAux V threshold min_features ransac_threshold
        (some (V.detectAndCompute gray).1) (V.detectAndCompute gray).2
        (idx + 1) rest

/-- The per-transition contributions of a whole frame sequence: one per
adjacent frame pair, in order, starting at frame index 1. -/
noncomputable def transOuts (V : Vision Frame Gray D) (threshold : ℝ)
    (min_features : ℕ) (ransac_threshold : ℝ) :
    List Frame → List (ℝ × FrameRec × Bool)
  | [] => []
  | f :: rest =>
    let gray := V.cvtColor f
    transOutsAux V threshold min_features ransac_threshold
      (some (V.detectAndCompute gray).1) (V.detectAndCompute gray).2 1 rest

/-- The loop as the specification describes it (§4.5): feature
extraction for the current frame runs once, and its output both feeds
this transition's matching step and becomes the retained "previous"
state for the next iteration.  The body is otherwise identical to
`detectLoop`, which extracts twice per frame as the Python source does
(lines 24 and 84). -/
noncomputable def detectLoopSingleExtract (V : Vision Frame Gray D) (threshold : ℝ)
    (min_features : ℕ) (ransac_threshold : ℝ) (acc : DetectionResult)
    (prevGray : Option Gray) (prevKeypoints : Option (List Keypoint))
    (prevDescriptors : Option D) (idx : ℕ) : List Frame → DetectionResult
  | [] => acc
  | frame :: rest =>
    let gray := V.cvtColor frame
    let kd := V.detectAndCompute gray
    let acc' :=
      match prevGray with
      | none => acc
      | some _ =>
        match prevKeypoints, prevDescriptors, kd.2 with
        | some pkps, some pdesc, some descs =>
          if kd.1.length > min_features ∧ pkps.length > min_features then
            let ms := sortByDistance (V.bfMatch pdesc descs)
            if ms.length ≥ min_features then
              match V.findHomography (srcPoints pkps ms) (dstPoints kd.1 ms)
                  ransac_threshold with
              | some (H, mask) =>
                let movement_score := analyze_transformation (some H) ms.length
                  (((ms.length * mask.count true : ℕ) : ℝ) / ((mask.length : ℕ) : ℝ))
                { movement_frames :=
                    if movement_score > threshold then acc.movement_frames ++ [idx]
                    else acc.movement_frames
                  movement_scores := acc.movement_scores ++ [movement_score]
                  transformation_data := acc.transformation_data ++
                    [⟨idx, some H, ms.length, mask.count true, movement_score⟩] }
              | none => failureResult acc idx ms.length
            else failureResult acc idx ms.length
          else failureResult acc idx 0
        | _, _, _ => failureResult acc idx 0
    detectLoopSingleExtract V threshold min_features ransac_threshold acc'
      (some gray) (some kd.1) kd.2 (idx + 1) rest

/-- The pipeline with a single feature extraction per frame whose output
both feeds the transition's matching and becomes the retained state. -/
noncomputable def detect_significant_movement_single_extract
    (V : Vision Frame Gray D) (threshold : ℝ) (min_features : ℕ)
    (ransac_threshold : ℝ) (frames : List Frame) : DetectionResult :=
  detectLoopSingleExtract V threshold min_features ransac_threshold ⟨[], [], []⟩
    none none none 0 frames

/-- OpenCV contract (spec §4.3): a successful `cv2.findHomography`
returns an inlier mask with one entry per input correspondence. -/
def MaskLengthConsistent (V : Vision Frame Gray D) : Prop :=
  ∀ src dst t H mask,
    V.findHomography src dst t = some (H, mask) → mask.length = src.length

/-- OpenCV contract: `orb.detectAndCompute` returns a null descriptor
matrix only when its keypoint list is empty. -/
def DetectConsistent (V : Vision Frame Gray D) : Prop :=
  ∀ g, (V.detectAndCompute g).2 = none → (V.detectAndCompute g).1 = []

/-- A degenerate vision backend over trivial frame types that never
detects a keypoint: every transition lands in the insufficient-keypoints
state.  Used to evaluate the pipeline on concrete inputs. -/
def noFeatureVision : Vision Unit Unit Unit where
  cvtColor _ := ()
  detectAndCompute _ := ([], none)
  bfMatch _ _ := []
  findHomography _ _ _ := none

/-- A vision backend over trivial frame types whose every frame yields
two keypoints and a descriptor, whose matcher returns one zero-distance
match, and whose estimator always succeeds with the identity homography
and an all-ones inlier mask.  Used to exercise the nominal path on
concrete inputs. -/
def idVision : Vision Unit Unit Unit where
  cvtColor _ := ()
  detectAndCompute _ := ([⟨(0, 0)⟩, ⟨(1, 0)⟩], some ())
  bfMatch _ _ := [⟨0, 0, 0⟩]
  findHomography src _ _ := some (1, List.replicate src.length true)

/-- A concrete homography that saturates all three score components:
translation (8, 0), rotation atan2(1, 0) = 90 degrees, scale
sqrt(0 + 4) = 2.  Row-major entries: [[0, 1, 8], [2, 1, 0], [0, 0, 1]]. -/
def HcexC8 : Mat3 := fun i j =>
  if i = 0 then (if j = 0 then 0 else if j = 1 then 1 else 8)
  else if i = 1 then (if j = 0 then 2 else if j = 1 then 1 else 0)
  else (if j = 0 then 0 else if j = 1 then 0 else 1)

theorem length_insertByDistance (m : DMatch) (l : List DMatch) :
    (insertByDistance m l).length = l.length + 1 := by
  induction l with
  | nil => rfl
  | cons x xs ih =>
    simp only [insertByDistance]
    split <;> simp [ih]

theorem length_sortByDistance (l : List DMatch) :
    (sortByDistance l).length = l.length := by
  induction l with
  | nil => rfl
  | cons x xs ih =>
    show (insertByDistance x (sortByDistance xs)).length = xs.length + 1
    rw [length_insertByDistance, ih]

theorem length_transOutsAux (V : Vision Frame Gray D) (th : ℝ) (mf : ℕ)
    (rt : ℝ) (fs : List Frame) :
    ∀ (pk : Option (List Keypoint)) (pd : Option D) (idx : ℕ),
      (transOutsAux V th mf rt pk pd idx fs).length = fs.length := by
  induction fs with
  | nil => intro pk pd idx; rfl
  | cons f rest ih =>
    intro pk pd idx
    simp only [transOutsAux, List.length_cons, ih]

theorem length_transOuts (V : Vision Frame Gray D) (th : ℝ) (mf : ℕ)
    (rt : ℝ) (fs : List Frame) :
    (transOuts V th mf rt fs).length = fs.length - 1 := by
  cases fs with
  | nil => rfl
  | cons f rest => simp [transOuts, length_transOutsAux]

/-- Characterization of the loop on and after the second frame: the
three result lists are the initial accumulators extended by the maps of
the per-transition contributions. -/
theorem detectLoop_eq (V : Vision Frame Gray D) (th : ℝ) (mf : ℕ) (rt : ℝ)
    (fs : List Frame) :
    ∀ (acc : DetectionResult) (pg : Gray) (pk : Option (List Keypoint))
      (pd : Option D) (idx : ℕ),
      detectLoop V th mf rt acc (some pg) pk pd idx fs =
        { movement_frames := acc.movement_frames ++
            ((transOutsAux V th mf rt pk pd idx fs).filter
              (fun o => o.2.2)).map (fun o => o.2.1.frame_idx)
          movement_scores := acc.movement_scores ++
            (transOutsAux V th mf rt pk pd idx fs).map (fun o => o.1)
          transformation_data := acc.transformation_data ++
            (transOutsAux V th mf rt pk pd idx fs).map (fun o => o.2.1) } := by
  induction fs with
  | nil => intro acc pg pk pd idx; simp [detectLoop, transOutsAux]
  | cons f rest ih =>
    intro acc pg pk pd idx
    rw [detectLoop, transOutsAux]
    rw [ih]
    rcases hkd : V.detectAndCompute (V.cvtColor f) with ⟨kps, descs⟩
    match pk, pd, descs with
    | none, pd, descs =>
      simp only [hkd, transOut, failureResult]
      simp [List.filter, List.append_assoc]
    | some pkps, none, descs =>
      simp only [hkd, transOut, failureResult]
      simp [List.filter, List.append_assoc]
    | some pkps, some pdesc, none =>
      simp only [hkd, transOut, failureResult]
      simp [List.filter, List.append_assoc]
    | some pkps, some pdesc, some descs =>
      simp only [hkd, transOut, failureResult]
      split_ifs with h1 h2
      · rcases hH : V.findHomography (srcPoints pkps (sortByDistance (V.bfMatch pdesc descs)))
          (dstPoints kps (sortByDistance (V.bfMatch pdesc descs))) rt with _ | ⟨H, mask⟩
        · simp [List.filter, List.append_assoc]
        · dsimp only
          by_cases hs : analyze_transformation (some H)
              (sortByDistance (V.bfMatch pdesc descs)).length
              ((((sortByDistance (V.bfMatch pdesc descs)).length * mask.count true : ℕ) : ℝ) /
                ((mask.length : ℕ) : ℝ)) > th
          · rw [if_pos hs, decide_eq_true hs]
            simp [List.filter, List.append_assoc]
          · rw [if_neg hs, decide_eq_false hs]
            simp [List.filter, List.append_assoc]
      · simp [List.filter, List.append_assoc]
      · simp [List.filter, List.append_assoc]

/-- Characterization of the whole run: flagged frames, scores and
records are the three projections of the per-transition contributions. -/
theorem detect_eq (V : Vision Frame Gray D) (th : ℝ) (mf : ℕ) (rt : ℝ)
    (fs : List Frame) :
    detect_significant_movement V th mf rt fs =
      { movement_frames := ((transOuts V th mf rt fs).filter
          (fun o => o.2.2)).map (fun o => o.2.1.frame_idx)
        movement_scores := (transOuts V th mf rt fs).map (fun o => o.1)
        transformation_data := (transOuts V th mf rt fs).map (fun o => o.2.1) } := by
  cases fs with
  | nil => rfl
  | cons f rest =>
    rw [detect_significant_movement, detectLoop, transOuts]
    rw [detectLoop_eq]
    rfl

/-- Case analysis on one transition: either it lands in one of the
insufficient-evidence states (flagged, score 100.0, null homography,
zero inliers), or the nominal path ran: both feature sets exceeded
`min_features`, the (sorted) matcher output reached `min_features`, the
estimator succeeded, and the emitted score, record and flag are the
ones computed from the homography and mask. -/
theorem transOut_spec (V : Vision Frame Gray D) (th : ℝ) (mf : ℕ) (rt : ℝ)
    (pk : Option (List Keypoint)) (pd : Option D) (g : Gray) (idx : ℕ) :
    (∃ m, transOut V th mf rt pk pd g idx = (100, ⟨idx, none, m, 0, 100⟩, true)) ∨
    (∃ pkps pdesc kps descs H mask,
      pk = some pkps ∧ pd = some pdesc ∧
      V.detectAndCompute g = (kps, some descs) ∧
      mf < kps.length ∧ mf < pkps.length ∧
      mf ≤ (sortByDistance (V.bfMatch pdesc descs)).length ∧
      V.findHomography (srcPoints pkps (sortByDistance (V.bfMatch pdesc descs)))
          (dstPoints kps (sortByDistance (V.bfMatch pdesc descs))) rt =
        some (H, mask) ∧
      transOut V th mf rt pk pd g idx =
        (analyze_transformation (some H)
            (sortByDistance (V.bfMatch pdesc descs)).length
            ((((sortByDistance (V.bfMatch pdesc descs)).length * mask.count true : ℕ) : ℝ) /
              ((mask.length : ℕ) : ℝ)),
         ⟨idx, some H, (sortByDistance (V.bfMatch pdesc descs)).length,
          mask.count true,
          analyze_transformation (some H)
            (sortByDistance (V.bfMatch pdesc descs)).length
            ((((sortByDistance (V.bfMatch pdesc descs)).length * mask.count true : ℕ) : ℝ) /
              ((mask.length : ℕ) : ℝ))⟩,
         decide (analyze_transformation (some H)
            (sortByDistance (V.bfMatch pdesc descs)).length
            ((((sortByDistance (V.bfMatch pdesc descs)).length * mask.count true : ℕ) : ℝ) /
              ((mask.length : ℕ) : ℝ)) > th))) := by
  rcases hkd : V.detectAndCompute g with ⟨kps, descs⟩
  rw [transOut.eq_def, hkd]
  dsimp only
  match pk, pd, descs with
  | none, pd, descs => exact Or.inl ⟨0, rfl⟩
  | some pkps, none, descs => exact Or.inl ⟨0, rfl⟩
  | some pkps, some pdesc, none => exact Or.inl ⟨0, rfl⟩
  | some pkps, some pdesc, some ds =>
    dsimp only
    by_cases h1 : kps.length > mf ∧ pkps.length > mf
    · rw [if_pos h1]
      by_cases h2 : (sortByDistance (V.bfMatch pdesc ds)).length ≥ mf
      · rw [if_pos h2]
        rcases hH : V.findHomography (srcPoints pkps (sortByDistance (V.bfMatch pdesc ds)))
            (dstPoints kps (sortByDistance (V.bfMatch pdesc ds))) rt with _ | ⟨H, mask⟩
        · exact Or.inl ⟨(sortByDistance (V.bfMatch pdesc ds)).length, rfl⟩
        · exact Or.inr ⟨pkps, pdesc, kps, ds, H, mask, rfl, rfl, rfl,
            h1.1, h1.2, h2, hH, rfl⟩
      · rw [if_neg h2]
        exact Or.inl ⟨(sortByDistance (V.bfMatch pdesc ds)).length, rfl⟩
    · rw [if_neg h1]
      exact Or.inl ⟨0, rfl⟩

/-- Every per-transition contribution arises from `transOut` applied to
the grayscale conversion of a member frame, at some index of at least
`idx`. -/
theorem mem_transOutsAux (V : Vision Frame Gray D) (th : ℝ) (mf : ℕ) (rt : ℝ)
    (fs : List Frame) :
    ∀ (pk : Option (List Keypoint)) (pd : Option D) (idx : ℕ) (o : ℝ × FrameRec × Bool),
      o ∈ transOutsAux V th mf rt pk pd idx fs →
      ∃ pk' pd' f i, f ∈ fs ∧ idx ≤ i ∧
        o = transOut V th mf rt pk' pd' (V.cvtColor f) i := by
  induction fs with
  | nil => intro pk pd idx o h; simp [transOutsAux] at h
  | cons f rest ih =>
    intro pk pd idx o h
    rw [transOutsAux] at h
    rcases List.mem_cons.mp h with h | h
    · exact ⟨pk, pd, f, idx, List.mem_cons_self f rest, le_refl idx, h⟩
    · rcases ih _ _ _ _ h with ⟨pk', pd', f', i, hf, hi, ho⟩
      exact ⟨pk', pd', f', i, List.mem_cons_of_mem f hf, by omega, ho⟩

theorem mem_transOuts (V : Vision Frame Gray D) (th : ℝ) (mf : ℕ) (rt : ℝ)
    (fs : List Frame) (o : ℝ × FrameRec × Bool)
    (h : o ∈ transOuts V th mf rt fs) :
    ∃ pk' pd' f i, f ∈ fs ∧ 1 ≤ i ∧
      o = transOut V th mf rt pk' pd' (V.cvtColor f) i := by
  cases fs with
  | nil => simp [transOuts] at h
  | cons f rest =>
    rw [transOuts] at h
    rcases mem_transOutsAux V th mf rt rest _ _ _ _ h with ⟨pk', pd', f', i, hf, hi, ho⟩
    exact ⟨pk', pd', f', i, List.mem_cons_of_mem f hf, hi, ho⟩

theorem detectLoop_eq_singleExtract (V : Vision Frame Gray D) (th : ℝ)
    (mf : ℕ) (rt : ℝ) (fs : List Frame) :
    ∀ (acc : DetectionResult) (pg : Option Gray) (pk : Option (List Keypoint))
      (pd : Option D) (idx : ℕ),
      detectLoop V th mf rt acc pg pk pd idx fs =
        detectLoopSingleExtract V th mf rt acc pg pk pd idx fs := by
  induction fs with
  | nil => intro acc pg pk pd idx; rfl
  | cons f rest ih =>
    intro acc pg pk pd idx
    rw [detectLoop.eq_def, detectLoopSingleExtract.eq_def]
    dsimp only
    exact ih _ _ _ _ _

/-- Index-wise characterization of the contribution stream: the `k`-th
contribution is `transOut` applied to the features retained from the
frame before it. -/
theorem transOutsAux_getD (V : Vision Frame Gray D) (th : ℝ) (mf : ℕ) (rt : ℝ)
    (fs : List Frame) :
    ∀ (pk : Option (List Keypoint)) (pd : Option D) (idx k : ℕ)
      (hk : k < fs.length),
      (transOutsAux V th mf rt pk pd idx fs).getD k default =
        if k = 0 then
          transOut V th mf rt pk pd
            (V.cvtColor (fs.get ⟨0, by omega⟩)) idx
        else
          transOut V th mf rt
            (some (V.detectAndCompute (V.cvtColor (fs.get ⟨k - 1, by omega⟩))).1)
            (V.detectAndCompute (V.cvtColor (fs.get ⟨k - 1, by omega⟩))).2
            (V.cvtColor (fs.get ⟨k, hk⟩)) (idx + k) := by
  induction fs with
  | nil => intro pk pd idx k hk; simp at hk
  | cons f rest ih =>
    intro pk pd idx k hk
    match k with
    | 0 => simp [transOutsAux]
    | k + 1 =>
      rw [transOutsAux]
      have hk' : k < rest.length := by simpa using hk
      dsimp only
      rw [List.getD_cons_succ]
      rw [ih _ _ _ k hk']
      match k with
      | 0 => simp [transOutsAux]
      | k + 1 =>
        simp only [if_neg (Nat.succ_ne_zero k), if_neg (Nat.succ_ne_zero (k + 1))]
        have h1 : (rest.get ⟨k + 1 - 1, by omega⟩) =
            ((f :: rest).get ⟨k + 1 + 1 - 1, by omega⟩) := rfl
        have h2 : (rest.get ⟨k + 1, hk'⟩) = ((f :: rest).get ⟨k + 1 + 1, hk⟩) := rfl
        rw [h1, h2]
        congr 1
        omega

/-- Index-wise characterization over the whole frame list: the `k`-th
contribution (transition into frame `k+1`) is computed from the
features of frame `k` as previous state and frame `k+1` as current. -/
theorem transOuts_getD (V : Vision Frame Gray D) (th : ℝ) (mf : ℕ) (rt : ℝ)
    (fs : List Frame) (k : ℕ) (hk : k + 1 < fs.length) :
    (transOuts V th mf rt fs).getD k default =
      transOut V th mf rt
        (some (V.detectAndCompute (V.cvtColor (fs.get ⟨k, by omega⟩))).1)
        (V.detectAndCompute (V.cvtColor (fs.get ⟨k, by omega⟩))).2
        (V.cvtColor (fs.get ⟨k + 1, hk⟩)) (k + 1) := by
  match fs, hk with
  | f :: rest, hk =>
    rw [transOuts]
    have hk' : k < rest.length := by simpa using hk
    rw [transOutsAux_getD V th mf rt rest _ _ 1 k hk']
    match k with
    | 0 => simp
    | k + 1 =>
      simp only [if_neg (Nat.succ_ne_zero k)]
      have h1 : (rest.get ⟨k + 1 - 1, by omega⟩) =
          ((f :: rest).get ⟨k + 1, by omega⟩) := rfl
      have h2 : (rest.get ⟨k + 1, hk'⟩) = ((f :: rest).get ⟨k + 1 + 1, hk⟩) := rfl
      rw [h1, h2]
      congr 1
      omega

/-- `getD` commutes with `map` at in-range indices. -/
theorem map_getD_lt {α β : Type} [Inhabited β] (f : α → β) (l : List α) (k : ℕ)
    (hk : k < l.length) (d : α) :
    (l.map f).getD k default = f (l.getD k d) := by
  induction l generalizing k with
  | nil => simp at hk
  | cons x xs ih =>
    cases k with
    | zero => simp
    | succ k =>
      simp only [List.map_cons, List.getD_cons_succ]
      exact ih k (by simpa using hk)

/-- Every transition record carries the frame index it was emitted at. -/
theorem transOut_frame_idx (V : Vision Frame Gray D) (th : ℝ) (mf : ℕ) (rt : ℝ)
    (pk : Option (List Keypoint)) (pd : Option D) (g : Gray) (idx : ℕ) :
    (transOut V th mf rt pk pd g idx).2.1.frame_idx = idx := by
  rcases transOut_spec V th mf rt pk pd g idx with ⟨m, h⟩ |
    ⟨pkps, pdesc, kps, descs, H, mask, _, _, _, _, _, _, _, h⟩ <;> rw [h]

/-- Concrete evaluation: with the featureless backend, a two-frame run
has exactly one transition, in the insufficient-keypoints state. -/
theorem noFeature_run (th : ℝ) :
    detect_significant_movement noFeatureVision th 10 3 [(), ()] =
      ⟨[1], [(100 : ℝ)], [⟨1, none, 0, 0, 100⟩]⟩ := rfl

/-- C3: for every non-null homography, match count and inlier count, the
implemented `analyze_transformation` agrees with the reference formula of
the specification: a 60/25/15-weighted sum of the clamped translation,
rotation and scale components, multiplied by 1.10 when the match count is
below 15, then by 1.05 when the inlier ratio is below 0.4, with no other
modification. -/
theorem claim_C3_analyze_eq_spec (H : Mat3) (m : ℕ) (i : ℝ) :
    analyze_transformation (some H) m i = analyzeSpecFormula H m i := by
  simp only [analyze_transformation, analyzeSpecFormula]
  norm_num
  split_ifs <;> ring

/-- C2: for every frame sequence `movement_scores` and
`transformation_data` have length `N - 1`, with the `k`-th record
carrying frame index `k + 1` (one record per transition, in frame
order); a one-frame sequence yields empty scores and no flagged frames,
and an empty sequence yields the empty result. -/
theorem claim_C2_lengths (V : Vision Frame Gray D) (th : ℝ) (mf : ℕ) (rt : ℝ) :
    (∀ fs : List Frame,
      (detect_significant_movement V th mf rt fs).movement_scores.length =
        fs.length - 1 ∧
      (detect_significant_movement V th mf rt fs).transformation_data.length =
        fs.length - 1 ∧
      ∀ (k : ℕ), k + 1 < fs.length →
        ((detect_significant_movement V th mf rt fs).transformation_data.getD k
          default).frame_idx = k + 1) ∧
    (∀ f : Frame,
      (detect_significant_movement V th mf rt [f]).movement_scores = [] ∧
      (detect_significant_movement V th mf rt [f]).movement_frames = []) ∧
    detect_significant_movement V th mf rt ([] : List Frame) = ⟨[], [], []⟩ := by
  refine ⟨fun fs => ⟨?_, ?_, ?_⟩, fun f => ⟨?_, ?_⟩, rfl⟩
  · rw [detect_eq]
    simp [length_transOuts]
  · rw [detect_eq]
    simp [length_transOuts]
  · intro k hk
    rw [detect_eq]
    have hlen : k < (transOuts V th mf rt fs).length := by
      rw [length_transOuts]; omega
    have := map_getD_lt (fun o => o.2.1) (transOuts V th mf rt fs) k hlen default
    simp only [this]
    rw [transOuts_getD V th mf rt fs k hk]
    exact transOut_frame_idx V th mf rt _ _ _ _
  · rw [detect_eq]
    simp [transOuts, transOutsAux]
  · rw [detect_eq]
    simp [transOuts, transOutsAux]

/-- Witness for C2 at a concrete input: the single record of a
two-frame run carries frame index 1. -/
theorem claim_C2_witness :
    ((detect_significant_movement noFeatureVision 50 10 3
      [(), ()]).transformation_data.getD 0 default).frame_idx = 1 :=
  ((claim_C2_lengths noFeatureVision 50 10 3).1 [(), ()]).2.2 0 (by norm_num)

/-- C1 fails as stated: at `threshold = 100` the featureless two-frame
run flags frame 1 although the score of its transition is 100.0, which
is not strictly greater than the threshold (the insufficient-evidence
branches append the frame index unconditionally). -/
theorem claim_C1_counterexample :
    (detect_significant_movement noFeatureVision 100 10 3
      [(), ()]).movement_frames = [1] ∧
    (detect_significant_movement noFeatureVision 100 10 3
      [(), ()]).movement_scores = [(100 : ℝ)] ∧
    ¬ ((100 : ℝ) > (100 : ℝ)) := by
  refine ⟨?_, ?_, by norm_num⟩ <;> rw [noFeature_run]

/-- C1 amended: provided `threshold < 100`, a frame index appears in
`movement_frames` if and only if its transition's record has a score
strictly greater than the threshold. -/
theorem claim_C1_amended (V : Vision Frame Gray D) (th : ℝ) (mf : ℕ) (rt : ℝ)
    (fs : List Frame) (hth : th < 100) (i : ℕ) :
    i ∈ (detect_significant_movement V th mf rt fs).movement_frames ↔
    ∃ r ∈ (detect_significant_movement V th mf rt fs).transformation_data,
      r.frame_idx = i ∧ r.score > th := by
  rw [detect_eq]
  dsimp only
  constructor
  · intro h
    rcases List.mem_map.mp h with ⟨o, ho, hidx⟩
    rcases List.mem_filter.mp ho with ⟨homem, hflag⟩
    refine ⟨o.2.1, List.mem_map.mpr ⟨o, homem, rfl⟩, hidx, ?_⟩
    rcases mem_transOuts V th mf rt fs o homem with ⟨pk, pd, f, j, _, _, hoeq⟩
    rcases transOut_spec V th mf rt pk pd (V.cvtColor f) j with ⟨m, hT⟩ |
      ⟨pkps, pdesc, kps, descs, H, mask, _, _, _, _, _, _, _, hT⟩
    · rw [hoeq, hT]; exact hth
    · rw [hoeq, hT]
      rw [hoeq, hT] at hflag
      exact of_decide_eq_true hflag
  · intro h
    rcases h with ⟨r, hr, hidx, hscore⟩
    rcases List.mem_map.mp hr with ⟨o, homem, hrec⟩
    have hflag : o.2.2 = true := by
      rcases mem_transOuts V th mf rt fs o homem with ⟨pk, pd, f, j, _, _, hoeq⟩
      rcases transOut_spec V th mf rt pk pd (V.cvtColor f) j with ⟨m, hT⟩ |
        ⟨pkps, pdesc, kps, descs, H, mask, _, _, _, _, _, _, _, hT⟩
      · rw [hoeq, hT]
      · rw [hoeq, hT]
        rw [hoeq, hT] at hrec
        refine decide_eq_true ?_
        have : r.score = analyze_transformation (some H)
            (sortByDistance (V.bfMatch pdesc descs)).length
            ((((sortByDistance (V.bfMatch pdesc descs)).length * mask.count true : ℕ) : ℝ) /
              ((mask.length : ℕ) : ℝ)) := by rw [← hrec]
        rw [this] at hscore
        exact hscore
    refine List.mem_map.mpr ⟨o, List.mem_filter.mpr ⟨homem, hflag⟩, ?_⟩
    rw [hrec, hidx]

/-- Witness for the amended C1 at a concrete input with
`threshold = 50 < 100`. -/
theorem claim_C1_witness :
    (50 : ℝ) < 100 ∧
    (1 ∈ (detect_significant_movement noFeatureVision 50 10 3
        [(), ()]).movement_frames ↔
      ∃ r ∈ (detect_significant_movement noFeatureVision 50 10 3
          [(), ()]).transformation_data, r.frame_idx = 1 ∧ r.score > 50) :=
  ⟨by norm_num,
   claim_C1_amended noFeatureVision 50 10 3 [(), ()] (by norm_num) 1⟩

/-- C4: every insufficient-evidence transition (matching skipped, too
few matches, or estimation failure — exactly the records with a null
homography) appends 100.0 to `movement_scores`, emits a record with
score 100.0 and zero inliers, and flags the frame; and
`analyze_transformation` returns 100.0 whenever its homography argument
is null. -/
theorem claim_C4_failure_states (V : Vision Frame Gray D) (th : ℝ) (mf : ℕ)
    (rt : ℝ) (fs : List Frame) :
    (∀ (m : ℕ) (i : ℝ), analyze_transformation none m i = 100) ∧
    ∀ p ∈ (detect_significant_movement V th mf rt fs).movement_scores.zip
        (detect_significant_movement V th mf rt fs).transformation_data,
      p.2.homography = none →
      p.1 = (100 : ℝ) ∧ p.2.score = 100 ∧ p.2.inliers = 0 ∧
      p.2.frame_idx ∈
        (detect_significant_movement V th mf rt fs).movement_frames := by
  refine ⟨fun m i => rfl, ?_⟩
  intro p hp hnone
  rw [detect_eq] at hp ⊢
  dsimp only at hp ⊢
  rw [List.zip_map'] at hp
  rcases List.mem_map.mp hp with ⟨o, homem, hpe⟩
  rcases mem_transOuts V th mf rt fs o homem with ⟨pk, pd, f, j, _, _, hoeq⟩
  rcases transOut_spec V th mf rt pk pd (V.cvtColor f) j with ⟨m, hT⟩ |
    ⟨pkps, pdesc, kps, descs, H, mask, _, _, _, _, _, _, _, hT⟩
  · rw [hoeq] at homem
    rw [hT] at hoeq homem
    rw [hoeq] at hpe
    refine ⟨?_, ?_, ?_, ?_⟩
    · rw [← hpe]
    · rw [← hpe]
    · rw [← hpe]
    · refine List.mem_map.mpr ⟨(100, ⟨j, none, m, 0, 100⟩, true),
        List.mem_filter.mpr ⟨homem, rfl⟩, ?_⟩
      rw [← hpe]
  · rw [hoeq, hT] at hpe
    rw [← hpe] at hnone
    simp at hnone

/-- Witness for C4: the single transition of the featureless two-frame
run has a null homography, and the implied facts hold there. -/
theorem claim_C4_witness :
    ((100 : ℝ), (⟨1, none, 0, 0, (100 : ℝ)⟩ : FrameRec)) ∈
      (detect_significant_movement noFeatureVision 50 10 3
        [(), ()]).movement_scores.zip
      (detect_significant_movement noFeatureVision 50 10 3
        [(), ()]).transformation_data ∧
    (1 : ℕ) ∈ (detect_significant_movement noFeatureVision 50 10 3
      [(), ()]).movement_frames := by
  have hmem : ((100 : ℝ), (⟨1, none, 0, 0, (100 : ℝ)⟩ : FrameRec)) ∈
      (detect_significant_movement noFeatureVision 50 10 3
        [(), ()]).movement_scores.zip
      (detect_significant_movement noFeatureVision 50 10 3
        [(), ()]).transformation_data := by
    rw [noFeature_run]
    simp
  exact ⟨hmem,
    ((claim_C4_failure_states noFeatureVision 50 10 3 [(), ()]).2 _ hmem
      rfl).2.2.2⟩

/-- C6: in every emitted record the inlier count is at most the match
count — in the nominal state the inliers are the count of ones in a
mask as long as the match list (given the OpenCV mask-length contract),
and in every failure state the inlier field is fixed at 0. -/
theorem claim_C6_inliers_le_matches (V : Vision Frame Gray D)
    (hWF : MaskLengthConsistent V) (th : ℝ) (mf : ℕ) (rt : ℝ)
    (fs : List Frame) :
    ∀ r ∈ (detect_significant_movement V th mf rt fs).transformation_data,
      r.inliers ≤ r.«matches» ∧ (r.homography = none → r.inliers = 0) := by
  intro r hr
  rw [detect_eq] at hr
  dsimp only at hr
  rcases List.mem_map.mp hr with ⟨o, homem, hrec⟩
  rcases mem_transOuts V th mf rt fs o homem with ⟨pk, pd, f, j, _, _, hoeq⟩
  rcases transOut_spec V th mf rt pk pd (V.cvtColor f) j with ⟨m, hT⟩ |
    ⟨pkps, pdesc, kps, descs, H, mask, _, _, _, _, _, _, hH, hT⟩
  · rw [hoeq, hT] at hrec
    rw [← hrec]
    exact ⟨Nat.zero_le m, fun _ => rfl⟩
  · rw [hoeq, hT] at hrec
    rw [← hrec]
    constructor
    · have hlen : mask.length =
          (sortByDistance (V.bfMatch pdesc descs)).length := by
        rw [hWF _ _ _ _ _ hH]
        simp [srcPoints]
      calc mask.count true ≤ mask.length := List.count_le_length true mask
        _ = _ := hlen
    · intro hcontra
      simp at hcontra

/-- Witness for C6: the mask-length contract holds for the featureless
backend (its estimator never succeeds), and the record of its two-frame
run satisfies the bound. -/
theorem claim_C6_witness :
    MaskLengthConsistent noFeatureVision ∧
    ((⟨1, none, 0, 0, (100 : ℝ)⟩ : FrameRec).inliers ≤
      (⟨1, none, 0, 0, (100 : ℝ)⟩ : FrameRec).«matches») := by
  have hWF : MaskLengthConsistent noFeatureVision := by
    intro src dst t H mask h
    simp [noFeatureVision] at h
  refine ⟨hWF, ?_⟩
  have hmem : (⟨1, none, 0, 0, (100 : ℝ)⟩ : FrameRec) ∈
      (detect_significant_movement noFeatureVision 50 10 3
        [(), ()]).transformation_data := by
    rw [noFeature_run]
    simp
  exact (claim_C6_inliers_le_matches noFeatureVision hWF 50 10 3
    [(), ()] _ hmem).1

/-- C9: the keypoints and descriptors the loop uses as the current set
when matching at a transition are exactly those retained as "previous"
for the next transition: because the extractor is a deterministic
function of the grayscale image, the pipeline that invokes the detector
twice per frame (as the Python source does at lines 24 and 84) is
extensionally equal to the pipeline that extracts once per frame and
reuses the output for both roles. -/
theorem claim_C9_single_extraction (V : Vision Frame Gray D) (th : ℝ)
    (mf : ℕ) (rt : ℝ) (fs : List Frame) :
    detect_significant_movement V th mf rt fs =
      detect_significant_movement_single_extract V th mf rt fs := by
  rw [detect_significant_movement, detect_significant_movement_single_extract,
    detectLoop_eq_singleExtract]

/-- A transition whose current frame yields at most `min_features`
keypoints lands in the insufficient-keypoints state whatever the
retained previous state is. -/
theorem transOut_small (V : Vision Frame Gray D) (th : ℝ) (mf : ℕ) (rt : ℝ)
    (pk : Option (List Keypoint)) (pd : Option D) (g : Gray) (idx : ℕ)
    (h : ((V.detectAndCompute g).1).length ≤ mf) :
    transOut V th mf rt pk pd g idx =
      (100, ⟨idx, none, 0, 0, 100⟩, true) := by
  rcases hkd : V.detectAndCompute g with ⟨kps, descs⟩
  rw [hkd] at h
  dsimp only at h
  rw [transOut.eq_def, hkd]
  dsimp only
  match pk, pd, descs with
  | none, pd, descs => rfl
  | some pkps, none, descs => rfl
  | some pkps, some pdesc, none => rfl
  | some pkps, some pdesc, some ds =>
    dsimp only
    have hc : ¬ (kps.length > mf ∧ pkps.length > mf) := fun hc =>
      absurd hc.1 (by omega)
    rw [if_neg hc]

/-- When every frame yields at most `min_features` keypoints, the
contribution stream is one insufficient-keypoints contribution per
transition, at consecutive frame indices. -/
theorem transOutsAux_small (V : Vision Frame Gray D) (th : ℝ) (mf : ℕ)
    (rt : ℝ) (fs : List Frame)
    (hs : ∀ f ∈ fs, ((V.detectAndCompute (V.cvtColor f)).1).length ≤ mf) :
    ∀ (pk : Option (List Keypoint)) (pd : Option D) (idx : ℕ),
      transOutsAux V th mf rt pk pd idx fs =
        (List.range' idx fs.length).map
          (fun i => ((100 : ℝ), (⟨i, none, 0, 0, 100⟩ : FrameRec), true)) := by
  induction fs with
  | nil => intro pk pd idx; rfl
  | cons f rest ih =>
    intro pk pd idx
    rw [transOutsAux]
    rw [transOut_small V th mf rt pk pd _ idx (hs f (List.mem_cons_self f rest))]
    rw [ih (fun f' hf' => hs f' (List.mem_cons_of_mem f hf'))]
    rw [List.length_cons, List.range'_succ, List.map_cons]

/-- C7: when every frame's detected keypoint count is at most
`min_features`, every transition lands in the insufficient-keypoints
state: every movement score is 100.0, every record has zero matches,
zero inliers and a null homography, and (in particular when
`threshold < 100`) every frame index `1 .. N-1` is flagged. -/
theorem claim_C7_forced_state2 (V : Vision Frame Gray D) (th : ℝ) (mf : ℕ)
    (rt : ℝ) (fs : List Frame)
    (hs : ∀ f ∈ fs, ((V.detectAndCompute (V.cvtColor f)).1).length ≤ mf) :
    (detect_significant_movement V th mf rt fs).movement_scores =
      List.replicate (fs.length - 1) (100 : ℝ) ∧
    (∀ r ∈ (detect_significant_movement V th mf rt fs).transformation_data,
      r.«matches» = 0 ∧ r.inliers = 0 ∧ r.homography = none ∧ r.score = 100) ∧
    (th < 100 →
      (detect_significant_movement V th mf rt fs).movement_frames =
        List.range' 1 (fs.length - 1)) := by
  rw [detect_eq]
  dsimp only
  cases fs with
  | nil => exact ⟨rfl, by simp [transOuts], fun _ => rfl⟩
  | cons f rest =>
    have hOuts : transOuts V th mf rt (f :: rest) =
        (List.range' 1 rest.length).map
          (fun i => ((100 : ℝ), (⟨i, none, 0, 0, 100⟩ : FrameRec), true)) := by
      rw [transOuts]
      exact transOutsAux_small V th mf rt rest
        (fun f' hf' => hs f' (List.mem_cons_of_mem f hf')) _ _ 1
    rw [hOuts]
    refine ⟨?_, ?_, fun _ => ?_⟩
    · rw [List.map_map]
      have h1 : (f :: rest).length - 1 = rest.length := by simp
      rw [h1]
      refine List.eq_replicate_iff.mpr ⟨by simp, ?_⟩
      intro b hb
      rcases List.mem_map.mp hb with ⟨i, _, hbe⟩
      exact hbe.symm
    · intro r hr
      rw [List.map_map] at hr
      rcases List.mem_map.mp hr with ⟨i, _, hre⟩
      rw [← hre]
      exact ⟨rfl, rfl, rfl, rfl⟩
    · have hfil : ((List.range' 1 rest.length).map
          (fun i => ((100 : ℝ), (⟨i, none, 0, 0, 100⟩ : FrameRec), true))).filter
            (fun o => o.2.2) =
          (List.range' 1 rest.length).map
            (fun i => ((100 : ℝ), (⟨i, none, 0, 0, 100⟩ : FrameRec), true)) := by
        refine List.filter_eq_self.mpr ?_
        intro o ho
        rcases List.mem_map.mp ho with ⟨i, _, hoe⟩
        rw [← hoe]
      rw [hfil, List.map_map]
      have : (f :: rest).length - 1 = rest.length := by simp
      rw [this]
      have : ((fun (o : ℝ × FrameRec × Bool) => o.2.1.frame_idx) ∘
          (fun i => ((100 : ℝ), (⟨i, none, 0, 0, 100⟩ : FrameRec), true))) =
          fun i => i := rfl
      rw [this, List.map_id']

/-- Witness for C7: the featureless backend detects zero keypoints on
every frame, so the two-frame run has score list `[100.0]` and flags
exactly frame 1. -/
theorem claim_C7_witness :
    (detect_significant_movement noFeatureVision 50 10 3
      [(), ()]).movement_scores = List.replicate 1 (100 : ℝ) ∧
    (detect_significant_movement noFeatureVision 50 10 3
      [(), ()]).movement_frames = List.range' 1 1 := by
  have hs : ∀ f ∈ ([(), ()] : List Unit),
      ((noFeatureVision.detectAndCompute (noFeatureVision.cvtColor f)).1).length ≤ 10 := by
    intro f hf
    simp [noFeatureVision]
  have h := claim_C7_forced_state2 noFeatureVision 50 10 3 [(), ()] hs
  exact ⟨h.1, h.2.2 (by norm_num)⟩

theorem HcexC8_00 : HcexC8 0 0 = 0 := rfl

theorem HcexC8_01 : HcexC8 0 1 = 1 := by
  simp [HcexC8, show (1 : Fin 3) ≠ 0 by decide]

theorem HcexC8_02 : HcexC8 0 2 = 8 := by
  simp [HcexC8, show (2 : Fin 3) ≠ 0 by decide, show (2 : Fin 3) ≠ 1 by decide]

theorem HcexC8_10 : HcexC8 1 0 = 2 := by
  simp [HcexC8, show (1 : Fin 3) ≠ 0 by decide]

theorem HcexC8_12 : HcexC8 1 2 = 0 := by
  simp [HcexC8, show (1 : Fin 3) ≠ 0 by decide,
    show (2 : Fin 3) ≠ 0 by decide, show (2 : Fin 3) ≠ 1 by decide]

/-- The saturating homography with one sparse match and no inliers
scores exactly 100 * 1.1 * 1.05 = 115.5. -/
theorem analyze_HcexC8 : analyze_transformation (some HcexC8) 1 0 = 115.5 := by
  rw [analyze_transformation.eq_def]
  dsimp only
  rw [HcexC8_00, HcexC8_01, HcexC8_02, HcexC8_10, HcexC8_12]
  have hsq1 : Real.sqrt ((8 : ℝ) ^ 2 + 0 ^ 2) = 8 := by
    rw [show ((8 : ℝ) ^ 2 + 0 ^ 2) = 8 ^ 2 by norm_num]
    exact Real.sqrt_sq (by norm_num)
  have hsq2 : Real.sqrt ((0 : ℝ) ^ 2 + 2 ^ 2) = 2 := by
    rw [show ((0 : ℝ) ^ 2 + 2 ^ 2) = 2 ^ 2 by norm_num]
    exact Real.sqrt_sq (by norm_num)
  have hrot : atan2 1 0 = Real.pi / 2 := by
    rw [atan2]
    norm_num
  have h9 : |Real.pi / 2| / (Real.pi / 18) = 9 := by
    rw [abs_of_pos (by positivity)]
    rw [div_div_div_comm]
    rw [div_self Real.pi_ne_zero]
    norm_num
  rw [hsq1, hsq2, hrot, h9]
  norm_num [min_eq_right]

/-- C8: the low-confidence multipliers can push the score strictly
above 100 (no final clamp is applied), yet for every non-null
homography and positive match count the score lies in [0, 115.5]
(that is, 100 * 1.10 * 1.05), over exact arithmetic. -/
theorem claim_C8_score_range :
    (∃ (H : Mat3) (m : ℕ) (i : ℝ), 100 < analyze_transformation (some H) m i) ∧
    (∀ (H : Mat3) (m : ℕ) (i : ℝ), 0 < m →
      0 ≤ analyze_transformation (some H) m i ∧
      analyze_transformation (some H) m i ≤ 115.5) := by
  constructor
  · exact ⟨HcexC8, 1, 0, by rw [analyze_HcexC8]; norm_num⟩
  · intro H m i hm
    rw [analyze_transformation.eq_def]
    dsimp only
    have h1 : 0 ≤ min (Real.sqrt ((H 0 2) ^ 2 + (H 1 2) ^ 2) / 8.0) 1.0 :=
      le_min (by positivity) (by norm_num)
    have h1' : min (Real.sqrt ((H 0 2) ^ 2 + (H 1 2) ^ 2) / 8.0) 1.0 ≤ 1.0 :=
      min_le_right _ _
    have h2 : 0 ≤ min (|atan2 (H 0 1) (H 0 0)| / (Real.pi / 18)) 1.0 :=
      le_min (by positivity) (by norm_num)
    have h2' : min (|atan2 (H 0 1) (H 0 0)| / (Real.pi / 18)) 1.0 ≤ 1.0 :=
      min_le_right _ _
    have h3 : 0 ≤ min (|Real.sqrt ((H 0 0) ^ 2 + (H 1 0) ^ 2) - 1.0| / 0.08) 1.0 :=
      le_min (by positivity) (by norm_num)
    have h3' : min (|Real.sqrt ((H 0 0) ^ 2 + (H 1 0) ^ 2) - 1.0| / 0.08) 1.0 ≤ 1.0 :=
      min_le_right _ _
    split_ifs <;> constructor <;> linarith

/-- Witness for C8's universal part at a concrete positive match
count. -/
theorem claim_C8_witness :
    (0 : ℕ) < 1 ∧
    0 ≤ analyze_transformation (some HcexC8) 1 0 ∧
    analyze_transformation (some HcexC8) 1 0 ≤ 115.5 :=
  ⟨by norm_num, claim_C8_score_range.2 HcexC8 1 0 (by norm_num)⟩

theorem idVision_WF : MaskLengthConsistent idVision := by
  intro src dst t H mask h
  simp only [idVision, Option.some.injEq, Prod.mk.injEq] at h
  rw [← h.2]
  simp

/-- C10: under `min_features >= 1` (and the OpenCV mask-length
contract), every nominal-path record has a match count of at least
`min_features`, hence positive, and the mask produced by the estimator
call that yielded its homography has length equal to that match count,
hence positive: both divisions performed for the score — by
`num_matches` inside `analyze_transformation` and by `len(mask)` in the
orchestrator's argument — have nonzero denominators in every run. -/
theorem claim_C10_no_div_by_zero (V : Vision Frame Gray D)
    (hWF : MaskLengthConsistent V) (th : ℝ) (mf : ℕ) (rt : ℝ) (hmf : 1 ≤ mf)
    (fs : List Frame) :
    ∀ r ∈ (detect_significant_movement V th mf rt fs).transformation_data,
      ∀ H, r.homography = some H →
        mf ≤ r.«matches» ∧ 0 < r.«matches» ∧
        ∃ src dst mask, V.findHomography src dst rt = some (H, mask) ∧
          src.length = r.«matches» ∧ mask.length = r.«matches» ∧
          0 < mask.length := by
  intro r hr H hH
  rw [detect_eq] at hr
  dsimp only at hr
  rcases List.mem_map.mp hr with ⟨o, homem, hrec⟩
  rcases mem_transOuts V th mf rt fs o homem with ⟨pk, pd, f, j, _, _, hoeq⟩
  rcases transOut_spec V th mf rt pk pd (V.cvtColor f) j with ⟨m, hT⟩ |
    ⟨pkps, pdesc, kps, descs, Hfound, mask, _, _, _, _, _, hlen, hFH, hT⟩
  · rw [hoeq, hT] at hrec
    rw [← hrec] at hH
    simp at hH
  · rw [hoeq, hT] at hrec
    rw [← hrec] at hH ⊢
    dsimp only at hH ⊢
    have hHeq : Hfound = H := by
      simpa using hH
    subst hHeq
    have hsrc : (srcPoints pkps (sortByDistance (V.bfMatch pdesc descs))).length =
        (sortByDistance (V.bfMatch pdesc descs)).length := by simp [srcPoints]
    have hmask : mask.length = (sortByDistance (V.bfMatch pdesc descs)).length := by
      rw [hWF _ _ _ _ _ hFH, hsrc]
    exact ⟨hlen, by omega,
      srcPoints pkps (sortByDistance (V.bfMatch pdesc descs)),
      dstPoints kps (sortByDistance (V.bfMatch pdesc descs)), mask, hFH,
      hsrc, hmask, by omega⟩

/-- Witness for C10: a two-frame run of the nominal-path backend with
`min_features = 1` has a record whose match count is at least 1. -/
theorem claim_C10_witness :
    MaskLengthConsistent idVision ∧ (1 : ℕ) ≤ 1 ∧
    (1 : ℕ) ≤ ((detect_significant_movement idVision 50 1 3
      [(), ()]).transformation_data.getD 0 default).«matches» := by
  have hdata : (detect_significant_movement idVision 50 1 3
      [(), ()]).transformation_data =
      [⟨1, some 1, 1, 1, analyze_transformation (some 1) 1
        (((1 : ℕ) : ℝ) / ((1 : ℕ) : ℝ))⟩] := rfl
  refine ⟨idVision_WF, le_refl 1, ?_⟩
  have hmem : ((detect_significant_movement idVision 50 1 3
      [(), ()]).transformation_data.getD 0 default) ∈
      (detect_significant_movement idVision 50 1 3
        [(), ()]).transformation_data := by
    rw [hdata]
    simp
  have hhom : ((detect_significant_movement idVision 50 1 3
      [(), ()]).transformation_data.getD 0 default).homography = some 1 := by
    rw [hdata]
    rfl
  exact (claim_C10_no_div_by_zero idVision idVision_WF 50 1 3 (le_refl 1)
    [(), ()] _ hmem 1 hhom).1

/-- Branch characterization of one transition with a retained previous
keypoint list: the record of the transition is determined by the guard
`len(keypoints) > min_features and len(prev_keypoints) > min_features`
(with the previous descriptors present), then by the match count
reaching `min_features`, then by the estimator outcome.  The hypothesis
is the OpenCV contract that a null descriptor matrix comes with an
empty keypoint list. -/
theorem transOut_branches (V : Vision Frame Gray D) (th : ℝ) (mf : ℕ) (rt : ℝ)
    (pkps : List Keypoint) (pdescO : Option D) (g : Gray) (idx : ℕ)
    (hDCg : (V.detectAndCompute g).2 = none → (V.detectAndCompute g).1 = []) :
    (¬ (mf < ((V.detectAndCompute g).1).length ∧ mf < pkps.length ∧
        pdescO.isSome) →
      (transOut V th mf rt (some pkps) pdescO g idx).2.1 =
        ⟨idx, none, 0, 0, 100⟩) ∧
    (∀ pdesc descs, pdescO = some pdesc → (V.detectAndCompute g).2 = some descs →
      mf < ((V.detectAndCompute g).1).length → mf < pkps.length →
      ((sortByDistance (V.bfMatch pdesc descs)).length < mf →
        (transOut V th mf rt (some pkps) pdescO g idx).2.1 =
          ⟨idx, none, (sortByDistance (V.bfMatch pdesc descs)).length, 0, 100⟩) ∧
      (mf ≤ (sortByDistance (V.bfMatch pdesc descs)).length →
        (transOut V th mf rt (some pkps) pdescO g idx).2.1.«matches» =
          (sortByDistance (V.bfMatch pdesc descs)).length ∧
        (V.findHomography
            (srcPoints pkps (sortByDistance (V.bfMatch pdesc descs)))
            (dstPoints ((V.detectAndCompute g).1)
              (sortByDistance (V.bfMatch pdesc descs))) rt = none →
          (transOut V th mf rt (some pkps) pdescO g idx).2.1 =
            ⟨idx, none, (sortByDistance (V.bfMatch pdesc descs)).length, 0, 100⟩) ∧
        (∀ H mask,
          V.findHomography
            (srcPoints pkps (sortByDistance (V.bfMatch pdesc descs)))
            (dstPoints ((V.detectAndCompute g).1)
              (sortByDistance (V.bfMatch pdesc descs))) rt = some (H, mask) →
          (transOut V th mf rt (some pkps) pdescO g idx).2.1.homography = some H ∧
          (transOut V th mf rt (some pkps) pdescO g idx).2.1.inliers =
            mask.count true))) := by
  rcases hkd : V.detectAndCompute g with ⟨kps, descs0⟩
  rw [hkd] at hDCg
  dsimp only at hDCg
  cases pdescO with
  | none =>
    constructor
    · intro _
      rw [transOut.eq_def, hkd]
    · intro pdesc descs hcontra
      simp at hcontra
  | some pdesc0 =>
    cases descs0 with
    | none =>
      constructor
      · intro _
        rw [transOut.eq_def, hkd]
      · intro pdesc descs hpd hcd
        simp at hcd
    | some d0 =>
      constructor
      · intro hnot
        rw [transOut.eq_def, hkd]
        dsimp only
        have hc : ¬ (kps.length > mf ∧ pkps.length > mf) := by
          intro hc
          exact hnot ⟨hc.1, hc.2, rfl⟩
        rw [if_neg hc]
      · intro pdesc descs hpd hcd hcur hprev
        have hpd' : pdesc0 = pdesc := by simpa using hpd
        have hcd' : d0 = descs := by simpa using hcd
        subst hpd'
        subst hcd'
        have hcur' : mf < kps.length := hcur
        constructor
        · intro hlt
          rw [transOut.eq_def, hkd]
          dsimp only
          rw [if_pos ⟨hcur', hprev⟩, if_neg (by omega :
            ¬ (sortByDistance (V.bfMatch pdesc0 d0)).length ≥ mf)]
        · intro hge
          refine ⟨?_, ?_, ?_⟩
          · rw [transOut.eq_def, hkd]
            dsimp only
            rw [if_pos ⟨hcur', hprev⟩, if_pos hge]
            rcases hFH : V.findHomography
                (srcPoints pkps (sortByDistance (V.bfMatch pdesc0 d0)))
                (dstPoints kps (sortByDistance (V.bfMatch pdesc0 d0))) rt with
              _ | ⟨H, mask⟩ <;> rfl
          · intro hFH
            rw [transOut.eq_def, hkd]
            dsimp only
            rw [if_pos ⟨hcur', hprev⟩, if_pos hge, hFH]
          · intro H mask hFH
            rw [transOut.eq_def, hkd]
            dsimp only
            rw [if_pos ⟨hcur', hprev⟩, if_pos hge, hFH]
            exact ⟨rfl, rfl⟩

/-- C5: for the transition into frame `k + 1`, descriptor matching is
attempted exactly when both keypoint sets exceed `min_features` and the
previous descriptors exist (otherwise the record is the
matching-skipped one, with `matches = 0`); homography estimation is
attempted exactly when the (sorted) matcher output reaches
`min_features` — below it the record is FrameRec{matches = len(matches),
inliers = 0, score = 100.0, homography = null}, and at or above it the
record's match count is `len(matches)` and its homography and inlier
fields are read off the estimator's result. -/
theorem claim_C5_matching_guards (V : Vision Frame Gray D)
    (hDC : DetectConsistent V) (th : ℝ) (mf : ℕ) (rt : ℝ)
    (fs : List Frame) (k : ℕ) (hk : k + 1 < fs.length) :
    (¬ (mf < ((V.detectAndCompute (V.cvtColor
          (fs.get ⟨k + 1, hk⟩))).1).length ∧
        mf < ((V.detectAndCompute (V.cvtColor
          (fs.get ⟨k, Nat.lt_of_succ_lt hk⟩))).1).length ∧
        ((V.detectAndCompute (V.cvtColor
          (fs.get ⟨k, Nat.lt_of_succ_lt hk⟩))).2).isSome) →
      (detect_significant_movement V th mf rt fs).transformation_data.getD k
          default = ⟨k + 1, none, 0, 0, 100⟩) ∧
    (∀ pdesc descs,
      (V.detectAndCompute (V.cvtColor
        (fs.get ⟨k, Nat.lt_of_succ_lt hk⟩))).2 = some pdesc →
      (V.detectAndCompute (V.cvtColor (fs.get ⟨k + 1, hk⟩))).2 = some descs →
      mf < ((V.detectAndCompute (V.cvtColor (fs.get ⟨k + 1, hk⟩))).1).length →
      mf < ((V.detectAndCompute (V.cvtColor
        (fs.get ⟨k, Nat.lt_of_succ_lt hk⟩))).1).length →
      ((sortByDistance (V.bfMatch pdesc descs)).length < mf →
        (detect_significant_movement V th mf rt fs).transformation_data.getD k
            default =
          ⟨k + 1, none, (sortByDistance (V.bfMatch pdesc descs)).length, 0, 100⟩) ∧
      (mf ≤ (sortByDistance (V.bfMatch pdesc descs)).length →
        ((detect_significant_movement V th mf rt fs).transformation_data.getD k
            default).«matches» = (sortByDistance (V.bfMatch pdesc descs)).length ∧
        (V.findHomography
            (srcPoints ((V.detectAndCompute (V.cvtColor
              (fs.get ⟨k, Nat.lt_of_succ_lt hk⟩))).1)
              (sortByDistance (V.bfMatch pdesc descs)))
            (dstPoints ((V.detectAndCompute (V.cvtColor (fs.get ⟨k + 1, hk⟩))).1)
              (sortByDistance (V.bfMatch pdesc descs))) rt = none →
          (detect_significant_movement V th mf rt fs).transformation_data.getD k
              default =
            ⟨k + 1, none, (sortByDistance (V.bfMatch pdesc descs)).length, 0, 100⟩) ∧
        (∀ H mask,
          V.findHomography
            (srcPoints ((V.detectAndCompute (V.cvtColor
              (fs.get ⟨k, Nat.lt_of_succ_lt hk⟩))).1)
              (sortByDistance (V.bfMatch pdesc descs)))
            (dstPoints ((V.detectAndCompute (V.cvtColor (fs.get ⟨k + 1, hk⟩))).1)
              (sortByDistance (V.bfMatch pdesc descs))) rt = some (H, mask) →
          ((detect_significant_movement V th mf rt fs).transformation_data.getD k
              default).homography = some H ∧
          ((detect_significant_movement V th mf rt fs).transformation_data.getD k
              default).inliers = mask.count true))) := by
  have hlen : k < (transOuts V th mf rt fs).length := by
    rw [length_transOuts]; omega
  have hR : (detect_significant_movement V th mf rt fs).transformation_data.getD
      k default =
      (transOut V th mf rt
        (some ((V.detectAndCompute (V.cvtColor
          (fs.get ⟨k, Nat.lt_of_succ_lt hk⟩))).1))
        ((V.detectAndCompute (V.cvtColor
          (fs.get ⟨k, Nat.lt_of_succ_lt hk⟩))).2)
        (V.cvtColor (fs.get ⟨k + 1, hk⟩)) (k + 1)).2.1 := by
    rw [detect_eq]
    dsimp only
    rw [map_getD_lt (fun o => o.2.1) _ k hlen default,
      transOuts_getD V th mf rt fs k hk]
  rw [hR]
  exact transOut_branches V th mf rt
    ((V.detectAndCompute (V.cvtColor (fs.get ⟨k, Nat.lt_of_succ_lt hk⟩))).1)
    ((V.detectAndCompute (V.cvtColor (fs.get ⟨k, Nat.lt_of_succ_lt hk⟩))).2)
    (V.cvtColor (fs.get ⟨k + 1, hk⟩)) (k + 1) (hDC _)

/-- Witness for C5: in the featureless two-frame run the guard fails,
and the transition record is the matching-skipped one. -/
theorem claim_C5_witness :
    DetectConsistent noFeatureVision ∧
    (detect_significant_movement noFeatureVision 50 10 3
      [(), ()]).transformation_data.getD 0 default = ⟨1, none, 0, 0, 100⟩ := by
  have hDC : DetectConsistent noFeatureVision := fun g _ => rfl
  refine ⟨hDC, ?_⟩
  exact (claim_C5_matching_guards noFeatureVision hDC 50 10 3 [(), ()] 0
    (by norm_num)).1 (by simp [noFeatureVision])
